import Mathlib

/-!
Verification development for the pypokerstar repository.

The definitions below are a shallow embedding of the Python sources:
  - `src/pypokerstar/src/types/cards.py`   (Card, Pair)
  - `src/pypokerstar/src/game/poker.py`    (Bet, Round, Hand, History)
  - `src/pypokerstar/src/parsers/pokerstars.py` (PokerStarsParser.parse loop)

Python strings are modelled as Lean `String` (Python `len` counts
codepoints, as does `String.length` / `toList.length`); monetary amounts
(Python floats produced by parsing decimal literals) are modelled as `ℚ`;
Python exceptions are modelled with `Except String`.
-/

namespace PyPoker

instance {ε α : Type} [DecidableEq ε] [DecidableEq α] : DecidableEq (Except ε α) := fun a b =>
  match a, b with
  | .ok x, .ok y =>
      if h : x = y then .isTrue (by rw [h]) else .isFalse (by intro he; cases he; exact h rfl)
  | .error x, .error y =>
      if h : x = y then .isTrue (by rw [h]) else .isFalse (by intro he; cases he; exact h rfl)
  | .ok _, .error _ => .isFalse (by intro he; cases he)
  | .error _, .ok _ => .isFalse (by intro he; cases he)

/-! ### Card model  (src/pypokerstar/src/types/cards.py)

The four suit constants are the two-codepoint emoji literals from the
source (base symbol + U+FE0F variation selector). -/

def SPADES : String := "♠️"

def CLUBS : String := "♣️"

def HEARTS : String := "♥️"

def DIAMONDS : String := "♦️"

/-- `SUITS = {"s": SPADES, "c": CLUBS, "h": HEARTS, "d": DIAMONDS}` -/
def SUITS : List (String × String) :=
  [("s", SPADES), ("c", CLUBS), ("h", HEARTS), ("d", DIAMONDS)]

/-- `SUITS.get(key)` -/
def suitsGet (key : String) : Option String :=
  (SUITS.find? (fun p => p.1 = key)).map (·.2)

/-- `REVERSE_SUITS = {v: k for k, v in SUITS.items()}`, as a lookup. -/
def reverseSuitsGet (v : String) : Option String :=
  (SUITS.find? (fun p => p.2 = v)).map (·.1)

/-- A playing card: `Card.number` (1-13, 1 = Ace) and `Card.suit`
(the suit symbol string, as stored by the Python class). -/
structure Card where
  number : Int
  suit : String
deriving DecidableEq

/-- `Card.__init__`: raises `TypeError` unless the suit is one of the four
symbol values.  `from_string` may pass `None` (modelled by `Option`). -/
def cardInit (number : Int) (suit : Option String) : Except String Card :=
  match suit with
  | some s => if SUITS.any (fun p => p.2 = s) then .ok ⟨number, s⟩
              else .error "TypeError: Suit must be in s, c, h, d"
  | none => .error "TypeError: Suit must be in s, c, h, d"

/-- Decimal digit-string value, `none` when some character is not a digit. -/
def digitsVal : List Char → Option Nat
  | [] => none
  | cs => if cs.all Char.isDigit
          then some (cs.foldl (fun a c => a * 10 + (c.toNat - 48)) 0)
          else none

/-- Python `int(string)` on the strings reachable here (optional sign,
decimal digits, surrounding whitespace allowed; anything else raises,
modelled as `none`). -/
def pyInt (s : String) : Option Int :=
  match (s.toList.dropWhile Char.isWhitespace).reverse.dropWhile Char.isWhitespace |>.reverse with
  | '-' :: rest => (digitsVal rest).map (fun n => -(n : Int))
  | '+' :: rest => (digitsVal rest).map (fun n => (n : Int))
  | cs => (digitsVal cs).map (fun n => (n : Int))

/-- `Card._parse_number` (cards.py lines 51-69). -/
def parseNumber (s : String) : Except String Int :=
  if s = "A" then .ok 1
  else if s = "T" then .ok 10
  else if s = "J" then .ok 11
  else if s = "Q" then .ok 12
  else if s = "K" then .ok 13
  else
    match pyInt s with
    | some n =>
        if n < 2 ∨ n > 10 then .error "ValueError: Card number must be between 2 and 9"
        else .ok n
    | none => .error "ValueError: Card number must be between 2 and 9 or A, J, Q, K, T"

/-- Python `str.strip()` on the character list. -/
def pyStrip (cs : List Char) : List Char :=
  ((cs.dropWhile Char.isWhitespace).reverse.dropWhile Char.isWhitespace).reverse

/-- `string.replace("[", "").replace("]", "")`. -/
def dropBrackets (cs : List Char) : List Char :=
  cs.filter (fun ch => ¬(ch = '[' ∨ ch = ']'))

/-- The normalisation `from_string` applies before the length check. -/
def pyClean (s : String) : List Char :=
  dropBrackets (pyStrip s.toList)

/-- `Card.from_string` (cards.py lines 71-79): strip, drop brackets,
require length 2, parse rank char, look up suit char, run `Card.__init__`. -/
def fromString (s : String) : Except String Card :=
  match pyClean s with
  | [c1, c2] =>
      (match parseNumber (String.mk [c1]) with
       | .ok n => cardInit n (suitsGet (String.mk [c2]))
       | .error e => .error e)
  | _ => .error "ValueError: Card string must be of length 2"

/-- The rank-character computation shared by `stringify` and
`standard_string` (cards.py lines 93-106 / 110-123). -/
def numberStr (n : Int) : String :=
  if n = 1 then "A"
  else if n = 10 then "T"
  else if n = 11 then "J"
  else if n = 12 then "Q"
  else if n = 13 then "K"
  else toString n

/-- `Card.stringify`: rank character followed by the suit symbol. -/
def Card.stringify (c : Card) : String :=
  numberStr c.number ++ c.suit

/-- `Card.standard_string`: rank character followed by
`REVERSE_SUITS[self.suit]` (KeyError modelled as `""`, unreachable for
cards built by `Card.__init__`). -/
def Card.standardString (c : Card) : String :=
  numberStr c.number ++ (reverseSuitsGet c.suit).getD ""

/-- `str(card)[0]` as used by `Pair.__init__`. -/
def strHead (c : Card) : String :=
  match c.stringify.toList with
  | [] => ""
  | ch :: _ => String.mk [ch]

/-- `Pair.__init__` computation of the `hand` notation attribute
(cards.py lines 149-165).  `sorted([card1, card2], key=number)` is a
stable ascending sort; note the pocket-pair assignment is performed first
and then unconditionally overwritten by the suited/offsuit branch, exactly
as in the source. -/
def pairHand (card1 card2 : Card) : String :=
  let cA := if card1.number ≤ card2.number then card1 else card2
  let cB := if card1.number ≤ card2.number then card2 else card1
  let hand0 := if card1.number = card2.number
               then toString card1.number ++ toString card2.number else ""
  if cA.suit = cB.suit then strHead cA ++ strHead cB ++ "s"
  else
    let _ := hand0
    strHead cA ++ strHead cB ++ "o"

/-- The 52 valid 2-character card tokens. -/
def validTokens : List String :=
  (["A", "2", "3", "4", "5", "6", "7", "8", "9", "T", "J", "Q", "K"]).flatMap
    (fun r => (["s", "c", "h", "d"]).map (fun su => r ++ su))

/-! ### Game model  (src/pypokerstar/src/game/poker.py)

`Player.__eq__` and `Player.__hash__` use the name alone, so participant
identity is modelled by the name string; a `Bet`'s `player` field is that
name.  Bet kinds are the closed set of strings the parser produces. -/

inductive GameType
  | cash
  | tournament
deriving DecidableEq

inductive BetType
  | bets
  | calls
  | raises
  | folds
  | checks
  | smallBlind
  | bigBlind
  | uncalled
  | collected
deriving DecidableEq

structure Bet where
  player : String
  type : BetType
  amount : ℚ
deriving DecidableEq

/-- `Player`: name, seat, starting stack and optionally revealed hole
cards. -/
structure Player where
  name : String
  seat : Int := 1
  pot : ℚ := 0
  cards : Option (List Card) := none
deriving DecidableEq

/-- `Round`: one street.  (`players` is omitted: the parser never calls
`add_player`, so the list stays empty for every parsed hand.)  `winner`
holds winner names (`set_winner` stores `Player` objects, whose identity
is their name). -/
structure Round where
  name : String
  bets : List Bet := []
  pot : ℚ := 0
  board : List Card := []
  winner : List String := []
  game_type : GameType := .cash
deriving DecidableEq

/-- Python `name.lower()` on the names occurring here. -/
def pyLower (s : String) : String :=
  String.mk (s.toList.map Char.toLower)

/-- The `ROUNDS` street-precedence table (poker.py lines 41-49). -/
def ROUNDS : List (String × Nat) :=
  [("table", 0), ("hole cards", 1), ("flop", 2), ("turn", 3),
   ("river", 4), ("show down", 5), ("summary", 6)]

/-- `ROUNDS[name.lower()]`, `none` for a `KeyError`. -/
def roundOrder (name : String) : Option Nat :=
  (ROUNDS.find? (fun p => p.1 = pyLower name)).map (·.2)

/-- `Hand`: aggregate root.  `_result` is the lazy result cache
(`{}`.falsy in Python is modelled by the empty list). -/
structure Hand where
  id : String
  players : List Player := []
  rounds : List Round := []
  hero : Option String := none
  game_type : GameType := .cash
  board : List Card := []
  winner : List String := []
  pot : ℚ := 0
  rake : ℚ := 0
  result_cache : List (String × ℚ) := []
deriving DecidableEq

/-- `Hand.get_round(name)`: `rounds_map` is a dict keyed by lowered round
name, so the LAST round with a given name wins. -/
def Hand.getRound (h : Hand) (name : String) : Option Round :=
  h.rounds.reverse.find? (fun r => pyLower r.name = pyLower name)

/-- One iteration of the `for round in self.rounds` loop of `Hand.refresh`
(poker.py lines 350-364), threading `(game_type, winner)`:
1. a tournament-tagged round overwrites the hand's game type;
2. `for card in round.board: if card not in self._board_set: ...` —
   `Card` defines `__eq__` but no `__hash__`, so the very first set
   membership test raises `TypeError: unhashable type` whenever the
   round's board is non-empty;
3. round winners are appended, deduplicated by name. -/
def refreshRound (st : GameType × List String) (r : Round) :
    Except String (GameType × List String) :=
  let gt := if r.game_type = .tournament then .tournament else st.1
  if r.board.isEmpty then
    .ok (gt, r.winner.foldl (fun acc n => if n ∈ acc then acc else acc ++ [n]) st.2)
  else .error "TypeError: unhashable type: Card"

/-- `Hand.refresh` (poker.py lines 332-364).  The hero-canonicalisation
step is the identity under name-based participant identity, and the
show-down hole-card copy loop is vacuous because parsed rounds never have
`players` entries; the round loop is `refreshRound`.  Since the board
loop raises on any non-empty street board, `self.board` can only ever
keep its current value. -/
def refreshFold (st : GameType × List String) :
    List Round → Except String (GameType × List String)
  | [] => .ok st
  | r :: rest =>
      match refreshRound st r with
      | .ok st' => refreshFold st' rest
      | .error e => .error e

def Hand.refresh (h : Hand) : Except String Hand :=
  match refreshFold (h.game_type, h.winner) h.rounds with
  | .ok st => .ok { h with game_type := st.1, winner := st.2 }
  | .error e => .error e

/-- Pair each round with its `ROUNDS` precedence key; `KeyError` for an
unknown street name. -/
def keyRounds : List Round → Except String (List (Nat × Round))
  | [] => .ok []
  | r :: rest =>
      match roundOrder r.name, keyRounds rest with
      | some k, .ok tl => .ok ((k, r) :: tl)
      | none, _ => .error "KeyError: round name"
      | _, .error e => .error e

def handInit (id : String) (players : List Player) (rounds : List Round)
    (hero : Option String) (pot rake : ℚ) : Except String Hand :=
  match keyRounds rounds with
  | .error e => .error e
  | .ok keyed =>
      Hand.refresh
        { id := id, players := players,
          rounds := (keyed.insertionSort (fun a b => a.1 ≤ b.1)).map (·.2),
          hero := hero, game_type := .cash, board := [], winner := [],
          pot := pot, rake := rake, result_cache := [] }

/-! ### Hand.result  (poker.py lines 385-409)

`tmp` is a Python dict keyed by player name, modelled by an association
list in insertion order. -/

/-- `tmp.get(name, 0.0)`. -/
def assocGetD (m : List (String × ℚ)) (k : String) : ℚ :=
  ((m.find? (fun p => p.1 = k)).map (·.2)).getD 0

/-- `tmp[name] = v`: overwrite the entry if the key is present, append
otherwise (dict insertion-order semantics). -/
def assocSet (m : List (String × ℚ)) (k : String) (v : ℚ) : List (String × ℚ) :=
  if m.any (fun p => p.1 = k) then m.map (fun p => if p.1 = k then (k, v) else p)
  else m ++ [(k, v)]

/-- `Hand.__get_player_bets` (second definition, poker.py lines 445-451):
all of one participant's bets across all rounds, in round order. -/
def Hand.playerBets (h : Hand) (name : String) : List Bet :=
  h.rounds.flatMap (fun r => r.bets.filter (fun b => b.player = name))

/-- `-sum(b.amount for b in player-bets if b.type != "collected")`. -/
def negNonCollected (h : Hand) (name : String) : ℚ :=
  -((((h.playerBets name).filter (fun b => ¬ b.type = .collected)).map (·.amount)).sum)

/-- The summary-round collected pass over `tmp`. -/
def addSummaryCollected (tmp : List (String × ℚ)) : List Bet → List (String × ℚ)
  | [] => tmp
  | b :: rest =>
      if b.type = .collected then
        addSummaryCollected (assocSet tmp b.player (assocGetD tmp b.player + b.amount)) rest
      else addSummaryCollected tmp rest

def resultCompute (h : Hand) : Except String (List (String × ℚ) × Hand) :=
  match h.refresh with
  | .error e => .error e
  | .ok h =>
      let tmp := h.players.foldl (fun m p => assocSet m p.name (negNonCollected h p.name)) []
      let tmp := match h.getRound "summary" with
        | some s => addSummaryCollected tmp s.bets
        | none => tmp
      let res := tmp.filter (fun kv => h.players.any (fun p => p.name = kv.1))
      .ok (res, { h with result_cache := res })

/-- `Hand.result` (poker.py lines 385-409): lazy, cached (`if not
self._result` — the empty dict is falsy). -/
def Hand.result (h : Hand) : Except String (List (String × ℚ) × Hand) :=
  if h.result_cache = [] then resultCompute h else .ok (h.result_cache, h)

/-- The per-participant net the claim describes - negative sum of
non-collected amounts plus sum of collected amounts WHEREVER they occur.
Stated from the claim's words, for comparison against `Hand.result`. -/
def claimNetAllStreets (h : Hand) (name : String) : ℚ :=
  -((((h.playerBets name).filter (fun b => ¬ b.type = .collected)).map (·.amount)).sum)
    + (((h.playerBets name).filter (fun b => b.type = .collected)).map (·.amount)).sum

/-- Sum of the `collected` amounts of one participant within a bet list. -/
def collectedSum (name : String) (bets : List Bet) : ℚ :=
  ((bets.filter (fun b => b.player = name ∧ b.type = .collected)).map (·.amount)).sum

/-- Bets of the summary street (empty when there is no summary street). -/
def summaryBets (h : Hand) : List Bet :=
  match h.getRound "summary" with
  | some s => s.bets
  | none => []

/-- Collected total recorded in the summary street for one name. -/
def summaryCollected (h : Hand) (name : String) : ℚ :=
  collectedSum name (summaryBets h)

/-! ### History and per-hand money accounting  (poker.py lines 479-560) -/

/-- `History`: hands, hero, and the `main_stats` cache. -/
structure History where
  hands : List Hand := []
  hero : Option String := none
  main_stats : Option (List (String × String)) := none
deriving DecidableEq

/-- `History.__init__` (lines 492-503): with a hero, keep only hands with
`hand.hero == hero and hand.game_type == "cash"`. -/
def historyInit (hands : List Hand) (hero : Option String) : History :=
  match hero with
  | none => { hands := hands, hero := none }
  | some hr =>
      { hands := hands.filter (fun h => h.hero = some hr ∧ h.game_type = .cash),
        hero := some hr }

/-- `History.add_hand` (lines 505-506): unconditional append. -/
def History.addHand (hist : History) (h : Hand) : History :=
  { hist with hands := hist.hands ++ [h] }

/-- The per-street running-investment loop of `get_money_history`
(poker.py lines 514-527): blind posts, bets and calls add; a raise
replaces the running total with `max(per_round, amount)`; an uncalled
return adds its (negative) amount; bets by other players and the
remaining kinds are ignored. -/
def perRoundInvested (hero : String) (bets : List Bet) : ℚ :=
  bets.foldl (fun per b =>
    if ¬ b.player = hero then per
    else match b.type with
      | .smallBlind => per + b.amount
      | .bigBlind => per + b.amount
      | .bets => per + b.amount
      | .calls => per + b.amount
      | .raises => max per b.amount
      | .uncalled => per + b.amount
      | _ => per) 0

/-- `total_bet`: sum of the per-street investments. -/
def totalInvested (hero : String) (h : Hand) : ℚ :=
  h.rounds.foldl (fun t r => t + perRoundInvested hero r.bets) 0

/-- `won` (lines 530-538): explicit collected amounts for the hero, with
an equal-split fallback when none exist and the hero is a declared
winner. -/
def heroWon (hero : String) (h : Hand) : ℚ :=
  let won := ((h.rounds.flatMap (fun r =>
      r.bets.filter (fun b => b.player = hero ∧ b.type = .collected))).map
      (·.amount)).sum
  if won = 0 ∧ ¬ h.winner = [] ∧ hero ∈ h.winner then
    (h.pot - h.rake) / (max h.winner.length 1 : ℚ)
  else won

/-- One `data` row of `get_money_history` (the date column and the
DataFrame post-processing - date sort and cumulative columns - are
presentation and carry no further per-hand content). -/
structure MoneyRow where
  total_bet : ℚ
  won : ℚ
  net : ℚ
  pot : ℚ
  rake : ℚ
deriving DecidableEq

def moneyRow (hero : String) (h : Hand) : MoneyRow :=
  { total_bet := totalInvested hero h, won := heroWon hero h,
    net := heroWon hero h - totalInvested hero h, pot := h.pot, rake := h.rake }

/-- The `data` list built by `get_money_history` (lines 508-548); raises
when no hero is defined. -/
def getMoneyHistoryData (hist : History) : Except String (List MoneyRow) :=
  match hist.hero with
  | none => .error "ValueError: Hero is not defined"
  | some hr => .ok (hist.hands.map (moneyRow hr))

/-! ### 3-bet detection  (poker.py lines 595-614)

The stats loop walks the chronological preflop bets, stops at the
player's FIRST raise, and flags a 3-bet iff some earlier preflop raise
belongs to a different player. -/

def is3betAux (p : String) (seenOtherRaise : Bool) : List Bet → Bool
  | [] => false
  | b :: rest =>
      if b.player = p ∧ b.type = .raises then seenOtherRaise
      else is3betAux p (seenOtherRaise || (b.type = .raises ∧ ¬ b.player = p)) rest

/-- `is_3bet` for one player over the hole-cards round's bets. -/
def is3bet (p : String) (bets : List Bet) : Bool :=
  is3betAux p false bets

/-- The claim's flag, stated from the claim's words: SOME preflop raise
of the participant is preceded by a raise from a different participant. -/
def claim3betAnyRaise (p : String) (bets : List Bet) : Bool :=
  (List.range bets.length).any (fun i =>
    match bets[i]? with
    | some b => b.player = p ∧ b.type = .raises ∧
        ((bets.take i).any (fun e => e.type = .raises ∧ ¬ e.player = p) : Bool)
    | none => false)

/-- The amended flag: the participant's FIRST preflop raise is preceded
by a raise from a different participant. -/
def firstRaise3bet (p : String) (bets : List Bet) : Bool :=
  match bets.findIdx? (fun b => b.player = p ∧ b.type = .raises) with
  | some i => (bets.take i).any (fun e => e.type = .raises ∧ ¬ e.player = p)
  | none => false

/-! ### get_main_stats  (poker.py lines 563-680)

`per_hand_rows` is a MODULE-LEVEL list: it belongs to the process, not to
the `History`, and is never cleared.  Rows are modelled by their
`(player, hand_id)` key (the remaining columns are per-row functions of
the same hand and do not affect row multiplicity).  `self.main_stats` is
assigned inside the per-hand loop, so it is only set when at least one
hand is processed, and the method returns `pl.DataFrame(per_hand_rows)` -
ALL rows accumulated in the process so far. -/

/-- Rows appended for one hand: one per entry of `hand.players`. -/
def handRows (h : Hand) : List (String × String) :=
  h.players.map (fun p => (p.name, h.id))

/-- The hand selection of `get_main_stats` (line 569). -/
def statsHands (hist : History) (hero : Option String) : List Hand :=
  match hero with
  | none => hist.hands
  | some hr => hist.hands.filter (fun h => h.hero = some hr)

/-- Run `hand.refresh()` over each selected hand, propagating the first
error (the refreshed objects are the same hands under name identity). -/
def refreshAll : List Hand → Except String Unit
  | [] => .ok ()
  | h :: rest =>
      match h.refresh with
      | .ok _ => refreshAll rest
      | .error e => .error e

/-- `History.get_main_stats`, threading the module-level `per_hand_rows`
buffer.  Returns `(returned table, new buffer, updated history)`. -/
def getMainStats (buffer : List (String × String)) (hist : History)
    (hero : Option String) (force : Bool) :
    Except String (List (String × String) × List (String × String) × History) :=
  match hist.main_stats, force with
  | some t, false => .ok (t, buffer, hist)
  | _, _ =>
    let hands := statsHands hist hero
    match refreshAll hands with
    | .error e => .error e
    | .ok _ =>
      let newBuffer := buffer ++ hands.flatMap handRows
      let newStats := if hands.isEmpty then hist.main_stats else some newBuffer
      .ok (newBuffer, newBuffer, { hist with main_stats := newStats })

/-! ### The batch loop of PokerStarsParser.parse  (pokerstars.py 300-403)

Per-block outcome of the loop body, abstracting the text processing:
`noId` = no `Hand #...:` token (failure counter incremented, block
skipped); `tournamentSkip` = tournament block skipped under
`skip_tournaments`; `noTimestamp` = `_parse_hand` returned `{}` (block
skipped WITHOUT counting); `exn` = any exception escaping the block body,
including a `ValueError` from `Hand(...)` (counter incremented, block
skipped); `ok h` = a `Hand` was assembled and refreshed successfully. -/

inductive BlockResult
  | noId
  | tournamentSkip
  | noTimestamp
  | exn
  | ok (h : Hand)
deriving DecidableEq

/-- The `for hand in hands` loop (pokerstars.py lines 323-400), returning
`(results, failed)`.  An assembled hand is ALWAYS appended; if its winner
list is empty the loop then executes `break`, abandoning every remaining
block without touching the failure counter. -/
def parseBatch : List BlockResult → List Hand × Nat
  | [] => ([], 0)
  | .noId :: rest => let (hs, f) := parseBatch rest; (hs, f + 1)
  | .tournamentSkip :: rest => parseBatch rest
  | .noTimestamp :: rest => parseBatch rest
  | .exn :: rest => let (hs, f) := parseBatch rest; (hs, f + 1)
  | .ok h :: rest =>
      if h.winner = [] then ([h], 0)
      else let (hs, f) := parseBatch rest; (h :: hs, f)

/-- The hand-level game-type assignment of `parse` (pokerstars.py lines
375-388) composed with the surrounding refreshes: `Hand.__init__` (which
ends in `refresh`) produced `h`; then `parse` sets cash if any round is
cash-tagged, else tournament if any is tournament-tagged; then
`hand_obj.refresh()` runs (overwriting with tournament if ANY round is
tournament-tagged).  Returns the hand's final game type. -/
def parsedGameType (id : String) (players : List Player) (rounds : List Round)
    (hero : Option String) (pot rake : ℚ) : Except String GameType :=
  match handInit id players rounds hero pot rake with
  | .error e => .error e
  | .ok h =>
      let gt := if h.rounds.any (fun r => r.game_type = .cash) then GameType.cash
        else if h.rounds.any (fun r => r.game_type = .tournament) then GameType.tournament
        else h.game_type
      match Hand.refresh { h with game_type := gt } with
      | .error e => .error e
      | .ok h => .ok h.game_type

/-! ### Concrete fixtures used by the theorems below -/

def alice : Player := { name := "Alice" }

def bob : Player := { name := "Bob" }

/-- A hand whose flop street revealed one community card. -/
def handWithFlop : Hand :=
  { id := "c1a", players := [alice, bob],
    rounds := [{ name := "hole cards", bets := [⟨"Alice", .raises, 2⟩] },
               { name := "flop", board := [⟨2, SPADES⟩] }] }

/-- The same hand with no community cards anywhere. -/
def handNoBoard : Hand :=
  { id := "c1b", players := [alice, bob],
    rounds := [{ name := "hole cards", bets := [⟨"Alice", .raises, 2⟩] },
               { name := "summary", bets := [⟨"Alice", .collected, 4⟩],
                 winner := ["Alice"] }] }

/-- An assembled hand whose winner list is empty. -/
def handNoWinner : Hand :=
  { id := "nw", players := [alice, bob] }

/-- An assembled hand with a winner. -/
def handGood : Hand :=
  { id := "good", players := [alice, bob], winner := ["Alice"] }

/-- One cash-tagged street and one tournament-tagged street, no boards. -/
def mixedRounds : List Round :=
  [{ name := "hole cards", game_type := .cash },
   { name := "summary", game_type := .tournament }]

/-- Alice raises preflop, Bob calls; Alice's payout is recorded in the
SHOW DOWN street (not in a summary street). -/
def handShowdownPaid : Hand :=
  { id := "c4", players := [alice, bob],
    rounds := [{ name := "hole cards", bets := [⟨"Alice", .raises, 6⟩, ⟨"Bob", .calls, 6⟩] },
               { name := "show down", bets := [⟨"Alice", .collected, 12⟩],
                 winner := ["Alice"] }] }

/-- Preflop: raise by A, re-raise by B, re-re-raise by A. -/
def raiseRaiseRaise : List Bet :=
  [⟨"A", .raises, 2⟩, ⟨"B", .raises, 6⟩, ⟨"A", .raises, 18⟩]

def statsHandP : Hand := { id := "h1", players := [{ name := "P" }] }

def statsHandQ : Hand := { id := "h2", players := [{ name := "Q" }] }

def cardAs : Card := ⟨1, SPADES⟩

/-- A tournament-tagged hand played by Carol only, with hero attribute
set to Carol. -/
def tourneyHand : Hand :=
  { id := "t1", players := [{ name := "Carol" }], hero := some "Carol",
    game_type := .tournament,
    rounds := [{ name := "hole cards", bets := [⟨"Carol", .raises, 6⟩] }] }

/-! ## Theorems -/

/-- C1.  The claim says `Hand.refresh` completes without error for every
hand, including hands whose streets contain community cards, leaving
`board` equal to the deduplicated union of the streets' community cards.
In fact `Card` defines `__eq__` without `__hash__`, so Python makes it
unhashable and the set-membership test `card not in self._board_set`
raises `TypeError` as soon as any street's board is non-empty: refresh
only completes for hands with NO community cards (where the union is
trivially empty).  Evaluating the embedded code: refresh fails on a hand
with a one-card flop board and succeeds on the same hand without it. -/
theorem c1_refresh_crashes_on_community_cards :
    Hand.refresh handWithFlop = .error "TypeError: unhashable type: Card" ∧
    Hand.refresh handNoBoard = .ok { handNoBoard with winner := ["Alice"] } ∧
    (Hand.refresh handNoBoard).map Hand.board = .ok [] := by
  decide

/-- C2.  The claim says every failing block (including one whose hand has
no resolvable winner) increments the failure counter and is skipped, and
the batch is never aborted part-way.  Evaluating the embedded batch loop:
a winnerless hand is APPENDED to the results, the counter stays 0, and
the loop `break`s so the following parseable block is lost; by contrast
an exception-raising block is indeed counted and skipped while the batch
continues. -/
theorem c2_winnerless_hand_aborts_batch :
    parseBatch [.ok handNoWinner, .ok handGood] = ([handNoWinner], 0) ∧
    parseBatch [.exn, .ok handGood] = ([handGood], 1) ∧
    parseBatch [.noId, .ok handGood] = ([handGood], 1) := by
  decide

/-- C3 counterexample.  A parsed hand with one cash-tagged street and one
tournament-tagged street ends up with game type TOURNAMENT, not cash:
the final `hand_obj.refresh()` overwrites the parse-level cash
assignment. -/
theorem c3_counterexample_mixed_hand_is_tournament :
    parsedGameType "c3" [alice] mixedRounds none 0 0 = .ok .tournament ∧
    ¬ parsedGameType "c3" [alice] mixedRounds none 0 0 = .ok .cash := by
  decide

/-- C7.  The claim (and the spec's testable property) says a pocket pair
such as `Pair(Th,Td)` produces "TT" with no suffix and that ranks are
ordered high-to-low.  In `Pair.__init__` the pocket-pair assignment is
dead code - it is unconditionally overwritten by the suited/offsuit
branch - so `Pair(Th,Td).hand == "TTo"`; and the ascending sort with
Ace = 1 makes `Pair(Kd,Qh).hand == "QKo"` (low rank first).  The "AKo"
examples do hold (Ace sorts first because its number is 1). -/
theorem c7_pocket_pair_notation_overwritten :
    pairHand ⟨1, HEARTS⟩ ⟨13, DIAMONDS⟩ = "AKo" ∧
    pairHand ⟨13, DIAMONDS⟩ ⟨1, HEARTS⟩ = "AKo" ∧
    pairHand ⟨10, HEARTS⟩ ⟨10, DIAMONDS⟩ = "TTo" ∧
    ¬ pairHand ⟨10, HEARTS⟩ ⟨10, DIAMONDS⟩ = "TT" ∧
    pairHand ⟨13, DIAMONDS⟩ ⟨12, HEARTS⟩ = "QKo" := by
  decide

/-- C8 counterexample.  The claim flags a participant whenever ONE of
their preflop raises is preceded by a different participant's raise; on
`[raise A, raise B, raise A]` that condition holds for A (A's second
raise follows B's), yet the code - which only examines A's FIRST raise -
does not flag A. -/
theorem c8_counterexample_later_raise_not_flagged :
    claim3betAnyRaise "A" raiseRaiseRaise = true ∧
    is3bet "A" raiseRaiseRaise = false := by
  decide

/-- C9 counterexample.  `parse(stringify(card))` fails for every card:
`stringify` appends the two-codepoint suit symbol, so the result has
length 3 and `from_string` rejects it (round-tripping works only through
`standard_string`).  Moreover `from_string` strips bracket characters
before the length check, so the 4-character token "[As]" parses
successfully instead of raising. -/
theorem c9_counterexample_stringify_not_parseable :
    (fromString cardAs.stringify).isOk = false ∧
    cardAs.stringify.length = 3 ∧
    fromString "[As]" = .ok cardAs ∧
    "[As]".length = 4 := by
  decide

/-- C4 counterexample.  In `handShowdownPaid` Alice's payout is a
`collected` action in the show-down street; `Hand.result` credits only
summary-street collected actions, so her computed net is `-6`, while the
claim's formula (collected wherever it occurs) gives `-6 + 12 = 6`. -/
theorem c4_counterexample_showdown_collected_ignored :
    (Hand.result handShowdownPaid).map (fun p => p.1)
      = .ok [("Alice", -6), ("Bob", -6)] ∧
    claimNetAllStreets handShowdownPaid "Alice" = 6 ∧
    ¬ claimNetAllStreets handShowdownPaid "Alice" = -6 := by
  refine ⟨?_, ?_, ?_⟩
  · simp +decide [Hand.result, resultCompute, Hand.refresh, refreshFold, refreshRound,
      Hand.getRound, negNonCollected, Hand.playerBets, addSummaryCollected,
      assocSet, assocGetD, handShowdownPaid, alice, bob, pyLower, Except.map]
  · simp [claimNetAllStreets, Hand.playerBets, handShowdownPaid, alice, bob]
    norm_num
  · simp [claimNetAllStreets, Hand.playerBets, handShowdownPaid, alice, bob]

/-- C6 counterexample.  The row buffer is a module-level global that is
never cleared: after computing the statistics of a first History (one
hand "h1", player P), computing the statistics of a SECOND History (one
hand "h2", player Q) in the same process returns a table that still
contains the first History's row `(P, "h1")` - a foreign row whose hand
id does not belong to the second History - instead of the claimed
one-row-per-pair table of that History. -/
theorem c6_counterexample_foreign_rows_second_history :
    getMainStats [] (historyInit [statsHandP] none) none false
      = .ok ([("P", "h1")], [("P", "h1")],
             { hands := [statsHandP], hero := none, main_stats := some [("P", "h1")] }) ∧
    getMainStats [("P", "h1")] (historyInit [statsHandQ] none) none false
      = .ok ([("P", "h1"), ("Q", "h2")], [("P", "h1"), ("Q", "h2")],
             { hands := [statsHandQ], hero := none,
               main_stats := some [("P", "h1"), ("Q", "h2")] }) ∧
    ¬ "h1" ∈ (historyInit [statsHandQ] none).hands.map Hand.id := by
  decide

/-- C5.  In the hero's per-street money accounting: blind posts, bets and
calls ADD their amount to the running total; a raise REPLACES the running
total with `max(current, amount)`; an uncalled return adds its (negative)
amount; other players' actions and the remaining kinds leave it
unchanged; and on the claim's example `[call 2 by A, raise to 6 by B]`
participant B's tracked investment for the street is 6, not 8. -/
theorem c5_raise_replaces_running_total :
    (∀ (hero : String) (prior : List Bet) (a : ℚ),
      perRoundInvested hero (prior ++ [⟨hero, .smallBlind, a⟩])
        = perRoundInvested hero prior + a) ∧
    (∀ (hero : String) (prior : List Bet) (a : ℚ),
      perRoundInvested hero (prior ++ [⟨hero, .bigBlind, a⟩])
        = perRoundInvested hero prior + a) ∧
    (∀ (hero : String) (prior : List Bet) (a : ℚ),
      perRoundInvested hero (prior ++ [⟨hero, .bets, a⟩])
        = perRoundInvested hero prior + a) ∧
    (∀ (hero : String) (prior : List Bet) (a : ℚ),
      perRoundInvested hero (prior ++ [⟨hero, .calls, a⟩])
        = perRoundInvested hero prior + a) ∧
    (∀ (hero : String) (prior : List Bet) (a : ℚ),
      perRoundInvested hero (prior ++ [⟨hero, .raises, a⟩])
        = max (perRoundInvested hero prior) a) ∧
    (∀ (hero : String) (prior : List Bet) (a : ℚ),
      perRoundInvested hero (prior ++ [⟨hero, .uncalled, a⟩])
        = perRoundInvested hero prior + a) ∧
    (∀ (hero : String) (prior : List Bet) (b : Bet), ¬ b.player = hero →
      perRoundInvested hero (prior ++ [b]) = perRoundInvested hero prior) ∧
    perRoundInvested "B" [⟨"A", .calls, 2⟩, ⟨"B", .raises, 6⟩] = 6 := by
  refine ⟨?_, ?_, ?_, ?_, ?_, ?_,
    fun hero prior b hne => by simp [perRoundInvested, List.foldl_append, hne],
    by decide⟩ <;> intro hero prior a
  all_goals simp [perRoundInvested, List.foldl_append]

/-- C5 witness: the other-player clause of the money-accounting statement
applied at a concrete non-hero action. -/
theorem c5_witness_other_player_ignored :
    perRoundInvested "B" ([⟨"A", .calls, 2⟩] ++ [⟨"A", .checks, 0⟩])
      = perRoundInvested "B" [⟨"A", .calls, 2⟩] :=
  c5_raise_replaces_running_total.2.2.2.2.2.2.1 "B" [⟨"A", .calls, 2⟩]
    ⟨"A", .checks, 0⟩ (by decide)

/-! ### Helper lemmas about refresh and hand assembly -/

theorem refreshRound_ok (st : GameType × List String) (r : Round) (hb : r.board = []) :
    refreshRound st r
      = .ok (if r.game_type = .tournament then .tournament else st.1,
             r.winner.foldl (fun acc n => if n ∈ acc then acc else acc ++ [n]) st.2) := by
  simp [refreshRound, hb]

theorem refreshFold_ok (rs : List Round) :
    ∀ (g : GameType) (w : List String), (∀ r ∈ rs, r.board = []) →
      ∃ w', refreshFold (g, w) rs
        = .ok (if rs.any (fun r => r.game_type = .tournament) then .tournament else g, w') := by
  induction rs with
  | nil => exact fun g w _ => ⟨w, by simp [refreshFold]⟩
  | cons r rest ih =>
      intro g w hb
      obtain ⟨w', hw'⟩ := ih (if r.game_type = .tournament then .tournament else g)
        (r.winner.foldl (fun acc n => if n ∈ acc then acc else acc ++ [n]) w)
        (fun x hx => hb x (List.mem_cons_of_mem _ hx))
      refine ⟨w', ?_⟩
      simp only [refreshFold, refreshRound_ok _ _ (hb r (List.mem_cons_self _ _)), hw',
        List.any_cons]
      by_cases ht : r.game_type = .tournament <;> simp [ht]

theorem refresh_ok_of_no_board (h : Hand) (hb : ∀ r ∈ h.rounds, r.board = []) :
    ∃ w', Hand.refresh h
      = .ok { h with
              game_type := (if h.rounds.any (fun r => r.game_type = .tournament)
                            then .tournament else h.game_type),
              winner := w' } := by
  obtain ⟨w', hw⟩ := refreshFold_ok h.rounds h.game_type h.winner hb
  exact ⟨w', by simp [Hand.refresh, hw]⟩

theorem keyRounds_ok_of_valid (rs : List Round)
    (hv : ∀ r ∈ rs, (roundOrder r.name).isSome) :
    ∃ keyed, keyRounds rs = .ok keyed ∧ keyed.map (·.2) = rs := by
  induction rs with
  | nil => exact ⟨[], rfl, rfl⟩
  | cons r rest ih =>
      obtain ⟨keyed, hk, hm⟩ := ih (fun x hx => hv x (List.mem_cons_of_mem _ hx))
      obtain ⟨k, hkk⟩ := Option.isSome_iff_exists.mp (hv r (List.mem_cons_self _ _))
      exact ⟨(k, r) :: keyed, by simp [keyRounds, hkk, hk], by simp [hm]⟩

theorem perm_any_eq {α : Type} {l1 l2 : List α} (h : l1.Perm l2) (p : α → Bool) :
    l1.any p = l2.any p :=
  Bool.eq_iff_iff.mpr (by simp only [List.any_eq_true]; exact ⟨fun ⟨x, hx, hp⟩ =>
    ⟨x, h.mem_iff.mp hx, hp⟩, fun ⟨x, hx, hp⟩ => ⟨x, h.mem_iff.mpr hx, hp⟩⟩)

/-- C3 amended.  Mixed-signal hands do NOT end up cash: the final
`refresh` overrides the parse-level assignment, so the assembled hand's
game type is TOURNAMENT exactly when some street is tournament-tagged,
and cash only when no street carries a tournament signal (stated for
hands that parse: valid street names and, per C1, no community cards). -/
theorem c3_amended_tournament_wins_ties (id : String) (players : List Player)
    (rounds : List Round) (hero : Option String) (pot rake : ℚ)
    (hv : ∀ r ∈ rounds, (roundOrder r.name).isSome)
    (hb : ∀ r ∈ rounds, r.board = []) :
    parsedGameType id players rounds hero pot rake
      = .ok (if rounds.any (fun r => r.game_type = .tournament)
             then GameType.tournament else GameType.cash) := by
  obtain ⟨keyed, hk, hm⟩ := keyRounds_ok_of_valid rounds hv
  have hperm : ((keyed.insertionSort (fun a b => a.1 ≤ b.1)).map (·.2)).Perm rounds := by
    have h1 := (List.perm_insertionSort (fun a b => a.1 ≤ b.1) keyed).map (·.2)
    rwa [hm] at h1
  set srt := (keyed.insertionSort (fun a b => a.1 ≤ b.1)).map (·.2) with hsrt
  have hbs : ∀ r ∈ srt, r.board = [] := fun r hr => hb r (hperm.mem_iff.mp hr)
  have hanyT := perm_any_eq hperm (fun r => r.game_type = .tournament)
  obtain ⟨w1, hw1⟩ := refreshFold_ok srt .cash [] hbs
  obtain ⟨wc, hwc⟩ := refreshFold_ok srt .cash w1 hbs
  obtain ⟨wt, hwt⟩ := refreshFold_ok srt .tournament w1 hbs
  by_cases hT : srt.any (fun r => r.game_type = .tournament) = true <;>
    by_cases hC : srt.any (fun r => r.game_type = .cash) = true <;>
      simp only [hT, hC, if_true, if_false] at hw1 hwc hwt ⊢ <;>
        simp [parsedGameType, handInit, hk, Hand.refresh, hw1, hwc, hwt, hT, hC,
          ← hanyT]

/-- C3 witness: the amended statement evaluated on the concrete
mixed-signal streets. -/
theorem c3_amended_witness :
    parsedGameType "c3w" [alice] mixedRounds none 0 0
      = .ok (if mixedRounds.any (fun r => r.game_type = .tournament)
             then GameType.tournament else GameType.cash) :=
  c3_amended_tournament_wins_ties "c3w" [alice] mixedRounds none 0 0
    (by decide) (by decide)

/-- C10.  `History.add_hand` appends unconditionally: for a History built
with a hero, appending a hand that the construction-time filter would
not have kept (a tournament hand, or one the hero did not play) still
lands in `hands`, contributes a row to `get_money_history`, and is
selected by the statistics pass. -/
theorem c10_add_hand_bypasses_filter (hands : List Hand) (hero : String) (t : Hand)
    (ht : t.game_type = .tournament ∨ ∀ p ∈ t.players, ¬ p.name = hero) :
    ((historyInit hands (some hero)).addHand t).hands
      = (historyInit hands (some hero)).hands ++ [t] ∧
    t ∈ ((historyInit hands (some hero)).addHand t).hands ∧
    getMoneyHistoryData ((historyInit hands (some hero)).addHand t)
      = .ok ((historyInit hands (some hero)).hands.map (moneyRow hero)
             ++ [moneyRow hero t]) ∧
    t ∈ statsHands ((historyInit hands (some hero)).addHand t) none := by
  refine ⟨rfl, ?_, ?_, ?_⟩
  · simp [History.addHand]
  · simp [getMoneyHistoryData, History.addHand, historyInit]
  · simp [statsHands, History.addHand]

/-- C10 witness: a tournament hand appended to a hero History. -/
theorem c10_witness :
    ((historyInit [] (some "Dave")).addHand tourneyHand).hands
      = (historyInit [] (some "Dave")).hands ++ [tourneyHand] ∧
    tourneyHand ∈ ((historyInit [] (some "Dave")).addHand tourneyHand).hands ∧
    getMoneyHistoryData ((historyInit [] (some "Dave")).addHand tourneyHand)
      = .ok ((historyInit [] (some "Dave")).hands.map (moneyRow "Dave")
             ++ [moneyRow "Dave" tourneyHand]) ∧
    tourneyHand ∈ statsHands ((historyInit [] (some "Dave")).addHand tourneyHand) none :=
  c10_add_hand_bypasses_filter [] "Dave" tourneyHand (Or.inl (by decide))

theorem is3betAux_eq (p : String) :
    ∀ (bets : List Bet) (seen : Bool),
      is3betAux p seen bets
        = (match bets.findIdx? (fun b => b.player = p ∧ b.type = .raises) with
           | some i => seen || (bets.take i).any (fun e => e.type = .raises ∧ ¬ e.player = p)
           | none => false) := by
  intro bets
  induction bets with
  | nil => intro seen; simp [is3betAux]
  | cons b rest ih =>
      intro seen
      by_cases hfst : b.player = p ∧ b.type = .raises
      · simp [is3betAux, hfst, List.findIdx?_cons]
      · simp only [is3betAux, hfst, if_false, ih, List.findIdx?_cons]
        simp only [decide_eq_true_eq] at *
        simp [hfst]
        cases hidx : rest.findIdx? (fun b => decide (b.player = p) && decide (b.type = .raises)) with
        | none => simp
        | some i => simp [List.take_succ_cons, Bool.or_assoc]

/-- C8 amended.  A participant is flagged as 3-betting exactly when their
FIRST preflop raise (in chronological order within the street) is
preceded by a raise from a DIFFERENT participant; later raises of the
same participant are never examined.  The claim's three examples hold:
`[raise A, raise B]` flags B, `[raise A]` flags nobody, and
`[raise A, raise A]` flags nobody. -/
theorem c8_amended_first_raise_semantics :
    (∀ (p : String) (bets : List Bet), is3bet p bets = firstRaise3bet p bets) ∧
    is3bet "B" [⟨"A", .raises, 2⟩, ⟨"B", .raises, 6⟩] = true ∧
    is3bet "A" [⟨"A", .raises, 2⟩] = false ∧
    is3bet "A" [⟨"A", .raises, 2⟩, ⟨"A", .raises, 6⟩] = false := by
  refine ⟨fun p bets => ?_, by decide, by decide, by decide⟩
  rw [is3bet, is3betAux_eq, firstRaise3bet]
  cases bets.findIdx? (fun b => b.player = p ∧ b.type = .raises) <;> simp

/-- C9 amended.  Round-tripping holds through `standard_string` (not
`stringify`, whose suit symbol `from_string` cannot parse): for every
valid 2-character token, parsing and re-parsing the standard string gives
the same card.  Error behaviour holds AFTER the bracket/whitespace
stripping `from_string` performs: a stripped token of length ≠ 2, an
unparseable rank character, or an unknown suit character all make
`from_string` raise. -/
theorem c9_amended_roundtrip_and_errors :
    (validTokens.all (fun t =>
       match fromString t with
       | .ok c => decide (fromString c.standardString = .ok c)
       | .error _ => false) = true) ∧
    (∀ s : String, ¬ (pyClean s).length = 2 → (fromString s).isOk = false) ∧
    (∀ (s : String) (c1 c2 : Char), pyClean s = [c1, c2] →
       (parseNumber (String.mk [c1])).isOk = false → (fromString s).isOk = false) ∧
    (∀ (s : String) (c1 c2 : Char), pyClean s = [c1, c2] →
       suitsGet (String.mk [c2]) = none → (fromString s).isOk = false) := by
  refine ⟨by decide, ?_, ?_, ?_⟩
  · intro s hs
    simp only [fromString]
    split
    · next c1 c2 heq => exact absurd (by rw [heq]; rfl) hs
    · rfl
  · intro s c1 c2 heq hp
    simp only [fromString, heq]
    cases hpn : parseNumber (String.mk [c1]) with
    | ok n => rw [hpn] at hp; cases hp
    | error e => rfl
  · intro s c1 c2 heq hsg
    simp only [fromString, heq, hsg]
    cases hpn : parseNumber (String.mk [c1]) with
    | ok n => simp [cardInit, Except.isOk, Except.toBool]
    | error e => rfl

/-- C9 witness: the error cases of the amended statement evaluated on
"Asd" (stripped length 3), "Xs" (bad rank) and "Ax" (bad suit). -/
theorem c9_amended_witness :
    (fromString "Asd").isOk = false ∧
    (fromString "Xs").isOk = false ∧
    (fromString "Ax").isOk = false :=
  ⟨c9_amended_roundtrip_and_errors.2.1 "Asd" (by decide),
   c9_amended_roundtrip_and_errors.2.2.1 "Xs" 'X' 's' (by decide) (by decide),
   c9_amended_roundtrip_and_errors.2.2.2 "Ax" 'A' 'x' (by decide) (by decide)⟩

/-! ### Helper lemmas about the result dict -/

theorem assocGetD_map (u : String → ℚ) (k : String) :
    ∀ ns : List String, k ∈ ns →
      assocGetD (ns.map (fun n => (n, u n))) k = u k := by
  intro ns
  induction ns with
  | nil => intro hk; cases hk
  | cons n tl ih =>
      intro hk
      rcases eq_or_ne n k with rfl | hnk
      · simp [assocGetD, List.find?]
      · rcases List.mem_cons.mp hk with rfl | htl
        · exact absurd rfl hnk
        · simpa [assocGetD, List.find?, hnk] using ih htl

theorem assocSet_map (u : String → ℚ) (k : String) (v : ℚ) (ns : List String)
    (hk : k ∈ ns) :
    assocSet (ns.map (fun n => (n, u n))) k v
      = ns.map (fun n => (n, if n = k then v else u n)) := by
  have hany : (ns.map (fun n => (n, u n))).any (fun p => p.1 = k) = true := by
    simp only [List.any_eq_true]
    exact ⟨(k, u k), List.mem_map.mpr ⟨k, hk, rfl⟩, by simp⟩
  simp only [assocSet, hany, if_true, List.map_map]
  apply List.map_congr_left
  intro n _
  rcases eq_or_ne n k with rfl | hnk
  · simp
  · simp [hnk]

theorem addSummaryCollected_map (ns : List String) :
    ∀ (bets : List Bet) (u : String → ℚ),
      (∀ b ∈ bets, b.type = .collected → b.player ∈ ns) →
      addSummaryCollected (ns.map (fun n => (n, u n))) bets
        = ns.map (fun n => (n, u n + collectedSum n bets)) := by
  intro bets
  induction bets with
  | nil =>
      intro u _
      simp [addSummaryCollected, collectedSum]
  | cons b rest ih =>
      intro u hcol
      by_cases hc : b.type = .collected
      · have hmem : b.player ∈ ns := hcol b (List.mem_cons_self _ _) hc
        rw [addSummaryCollected, if_pos hc,
          assocGetD_map u b.player ns hmem, assocSet_map u b.player _ ns hmem,
          ih (fun n => if n = b.player then u b.player + b.amount else u n)
            (fun x hx hcx => hcol x (List.mem_cons_of_mem _ hx) hcx)]
        apply List.map_congr_left
        intro n _
        rcases eq_or_ne n b.player with rfl | hnb
        · simp only [if_pos rfl, Prod.mk.injEq, true_and]
          simp [collectedSum, List.filter_cons, hc]
          ring
        · simp only [if_neg hnb, Prod.mk.injEq, true_and]
          simp [collectedSum, List.filter_cons, hc, (Ne.symm hnb)]
      · rw [addSummaryCollected, if_neg hc,
          ih u (fun x hx hcx => hcol x (List.mem_cons_of_mem _ hx) hcx)]
        apply List.map_congr_left
        intro n _
        simp [collectedSum, List.filter_cons, hc]

theorem foldl_assocSet_build (f0 : String → ℚ) :
    ∀ (ns : List String) (m : List (String × ℚ)),
      ns.Nodup → (∀ n ∈ ns, m.any (fun p => p.1 = n) = false) →
      ns.foldl (fun m n => assocSet m n (f0 n)) m = m ++ ns.map (fun n => (n, f0 n)) := by
  intro ns
  induction ns with
  | nil => intro m _ _; simp
  | cons n tl ih =>
      intro m hnd hdis
      have hn : m.any (fun p => p.1 = n) = false := hdis n (List.mem_cons_self _ _)
      have hset : assocSet m n (f0 n) = m ++ [(n, f0 n)] := by simp [assocSet, hn]
      rw [List.foldl_cons, hset,
        ih (m ++ [(n, f0 n)]) (List.nodup_cons.mp hnd).2 ?dis, List.append_assoc]
      rfl
      case dis =>
        intro x hx
        have hnx : ¬ n = x := fun heq => (List.nodup_cons.mp hnd).1 (heq ▸ hx)
        simp [List.any_append, hdis x (List.mem_cons_of_mem _ hx), hnx]

theorem negNonCollected_congr {h h2 : Hand} (hr : h2.rounds = h.rounds) :
    ∀ n, negNonCollected h2 n = negNonCollected h n := by
  intro n
  simp [negNonCollected, Hand.playerBets, hr]

theorem getRound_congr {h h2 : Hand} (hr : h2.rounds = h.rounds) (name : String) :
    h2.getRound name = h.getRound name := by
  simp [Hand.getRound, hr]

theorem resultCompute_formula (h h2 : Hand) (hw : h.refresh = .ok h2)
    (hp : h2.players = h.players) (hr : h2.rounds = h.rounds)
    (hnd : (h.players.map Player.name).Nodup)
    (hcol : ∀ b ∈ summaryBets h, b.type = .collected →
      b.player ∈ h.players.map Player.name) :
    resultCompute h
      = .ok (h.players.map
               (fun p => (p.name, negNonCollected h p.name + summaryCollected h p.name)),
             { h2 with result_cache :=
                 (h.players.map
                   (fun p => (p.name, negNonCollected h p.name + summaryCollected h p.name))) }) := by
  have hneg := negNonCollected_congr hr
  have hgr := getRound_congr hr "summary"
  have hbuild : h.players.foldl
        (fun m p => assocSet m p.name (negNonCollected h p.name)) []
      = (h.players.map Player.name).map (fun n => (n, negNonCollected h n)) := by
    rw [← List.foldl_map Player.name (fun m n => assocSet m n (negNonCollected h n))]
    exact foldl_assocSet_build (negNonCollected h) (h.players.map Player.name) [] hnd
      (by simp)
  have hfilter : ∀ (g : String → ℚ),
      ((h.players.map Player.name).map (fun n => (n, g n))).filter
        (fun kv => h.players.any (fun p => p.name = kv.1))
      = (h.players.map Player.name).map (fun n => (n, g n)) := by
    intro g
    apply List.filter_eq_self.mpr
    intro kv hkv
    obtain ⟨n, hn, rfl⟩ := List.mem_map.mp hkv
    obtain ⟨p, hp', hpn⟩ := List.mem_map.mp hn
    simp only [List.any_eq_true]
    exact ⟨p, hp', by simp [hpn]⟩
  simp only [resultCompute, hw, hp, hgr, hneg, hbuild]
  cases hs : h.getRound "summary" with
  | some s =>
      have hcol' : ∀ b ∈ s.bets, b.type = .collected →
          b.player ∈ h.players.map Player.name := by
        intro b hb hbc
        exact hcol b (by simp [summaryBets, hs, hb]) hbc
      dsimp only
      rw [addSummaryCollected_map _ s.bets _ hcol', hfilter]
      have hmain : (h.players.map Player.name).map
            (fun n => (n, negNonCollected h n + collectedSum n s.bets))
          = h.players.map
              (fun p => (p.name, negNonCollected h p.name + summaryCollected h p.name)) := by
        rw [List.map_map]
        apply List.map_congr_left
        intro p _
        simp [Function.comp, summaryCollected, summaryBets, hs]
      rw [hmain]
  | none =>
      dsimp only
      rw [hfilter]
      have hmain : (h.players.map Player.name).map
            (fun n => (n, negNonCollected h n))
          = h.players.map
              (fun p => (p.name, negNonCollected h p.name + summaryCollected h p.name)) := by
        rw [List.map_map]
        apply List.map_congr_left
        intro p _
        simp [Function.comp, summaryCollected, summaryBets, hs, collectedSum]
      rw [hmain]

theorem resultCompute_formula_ex (h h2 : Hand) (hw : h.refresh = .ok h2)
    (hp : h2.players = h.players) (hr : h2.rounds = h.rounds)
    (hnd : (h.players.map Player.name).Nodup)
    (hcol : ∀ b ∈ summaryBets h, b.type = .collected →
      b.player ∈ h.players.map Player.name) :
    ∃ h', resultCompute h
        = .ok (h.players.map
            (fun p => (p.name, negNonCollected h p.name + summaryCollected h p.name)), h')
      ∧ h'.result_cache
        = h.players.map
            (fun p => (p.name, negNonCollected h p.name + summaryCollected h p.name)) :=
  ⟨{ h2 with result_cache :=
       (h.players.map
         (fun p => (p.name, negNonCollected h p.name + summaryCollected h p.name))) },
   resultCompute_formula h h2 hw hp hr hnd hcol, rfl⟩

/-- C4 amended.  The lazily computed, cached per-participant net equals
the negative sum of the participant's non-collected action amounts across
all streets PLUS the sum of their collected amounts recorded in the
SUMMARY street only - collected actions in any other street are ignored.
Stated for hands that refresh (no community cards, per C1), with distinct
participant names, whose summary payouts reference seated participants,
and an empty cache; the second conjunct is the cache hit on re-access. -/
theorem c4_amended_summary_collected_only (h : Hand)
    (hb : ∀ r ∈ h.rounds, r.board = [])
    (hnd : (h.players.map Player.name).Nodup)
    (hcol : ∀ b ∈ summaryBets h, b.type = .collected →
      b.player ∈ h.players.map Player.name)
    (hcache : h.result_cache = [])
    (hne : ¬ h.players = []) :
    ∃ h', Hand.result h
        = .ok (h.players.map
            (fun p => (p.name, negNonCollected h p.name + summaryCollected h p.name)), h')
      ∧ Hand.result h'
        = .ok (h.players.map
            (fun p => (p.name, negNonCollected h p.name + summaryCollected h p.name)), h') := by
  obtain ⟨w', hw⟩ := refresh_ok_of_no_board h hb
  obtain ⟨h', hfe, hrc⟩ := resultCompute_formula_ex h _ hw rfl rfl hnd hcol
  have hvne : ¬ (h.players.map
      (fun p => (p.name, negNonCollected h p.name + summaryCollected h p.name))) = [] := by
    simp [hne]
  refine ⟨h', ?_, ?_⟩
  · simp only [Hand.result, hcache, if_pos]
    exact hfe
  · simp only [Hand.result]
    rw [hrc, if_neg hvne]

/-- C4 witness: the amended statement evaluated on `handShowdownPaid`
(whose summary street is absent, so its summary-collected totals are 0
and each net is just the negated investment). -/
theorem c4_amended_witness :
    ∃ h', Hand.result handShowdownPaid
        = .ok (handShowdownPaid.players.map
            (fun p => (p.name, negNonCollected handShowdownPaid p.name
                                 + summaryCollected handShowdownPaid p.name)), h')
      ∧ Hand.result h'
        = .ok (handShowdownPaid.players.map
            (fun p => (p.name, negNonCollected handShowdownPaid p.name
                                 + summaryCollected handShowdownPaid p.name)), h') :=
  c4_amended_summary_collected_only handShowdownPaid (by decide) (by decide)
    (by decide) (by decide) (by decide)

theorem refreshAll_ok (hs : List Hand)
    (hb : ∀ h ∈ hs, ∀ r ∈ h.rounds, r.board = []) :
    refreshAll hs = .ok () := by
  induction hs with
  | nil => rfl
  | cons h tl ih =>
      obtain ⟨w', hw⟩ := refresh_ok_of_no_board h (hb h (List.mem_cons_self _ _))
      simp [refreshAll, hw, ih (fun x hx => hb x (List.mem_cons_of_mem _ hx))]

/-- C6 amended.  Within one fresh computation the statistics table does
contain exactly the `(player, hand)` rows of the History it is computed
over (and those rows are pairwise distinct when hand ids and per-hand
player names are), and a repeat invocation returns the cached table
unchanged; BUT the row buffer is module-level process state that is never
cleared, so the table returned for a History computed with a non-empty
buffer is the buffer's prior rows FOLLOWED BY that History's rows -
computing a second History in the same process therefore returns the
first History's rows as well. -/
theorem c6_amended_one_row_per_pair_fresh_buffer
    (buffer : List (String × String)) (hist : History) (hero : Option String)
    (hms : hist.main_stats = none)
    (hb : ∀ h ∈ statsHands hist hero, ∀ r ∈ h.rounds, r.board = []) :
    getMainStats buffer hist hero false
      = .ok (buffer ++ (statsHands hist hero).flatMap handRows,
             buffer ++ (statsHands hist hero).flatMap handRows,
             { hist with main_stats :=
                 (if (statsHands hist hero).isEmpty then none
                  else some (buffer ++ (statsHands hist hero).flatMap handRows)) }) ∧
    (∀ (buffer' : List (String × String)) (hist' : History) (t : List (String × String)),
      hist'.main_stats = some t →
      getMainStats buffer' hist' hero false = .ok (t, buffer', hist')) ∧
    ((statsHands hist hero).Pairwise (fun a b => ¬ a.id = b.id) →
     (∀ h ∈ statsHands hist hero, (h.players.map Player.name).Nodup) →
     ((statsHands hist hero).flatMap handRows).Nodup) := by
  refine ⟨?_, ?_, ?_⟩
  · simp [getMainStats, hms, refreshAll_ok _ hb]
  · intro buffer' hist' t hms'
    simp [getMainStats, hms']
  · intro hpw hnames
    refine List.nodup_flatMap.mpr ⟨?_, ?_⟩
    · intro h hmem
      have hrows : handRows h = (h.players.map Player.name).map (fun n => (n, h.id)) := by
        simp [handRows, List.map_map]
      rw [hrows]
      exact (hnames h hmem).map (fun a b hab => congrArg Prod.fst hab)
    · refine hpw.imp ?_
      intro a b hab x hxa hxb
      obtain ⟨p, _, rfl⟩ := List.mem_map.mp hxa
      obtain ⟨q, _, hq⟩ := List.mem_map.mp hxb
      exact hab (congrArg Prod.snd hq.symm)

/-- C6 witness: the amended statement applied to the second History of
the counterexample, with the first History's row already in the process
buffer, plus the cached-repeat clause applied to a History whose cache
holds that row. -/
theorem c6_amended_witness :
    (getMainStats [("P", "h1")] (historyInit [statsHandQ] none) none false
      = .ok ([("P", "h1")] ++ (statsHands (historyInit [statsHandQ] none) none).flatMap handRows,
             [("P", "h1")] ++ (statsHands (historyInit [statsHandQ] none) none).flatMap handRows,
             { historyInit [statsHandQ] none with main_stats :=
                 (if (statsHands (historyInit [statsHandQ] none) none).isEmpty then none
                  else some ([("P", "h1")]
                    ++ (statsHands (historyInit [statsHandQ] none) none).flatMap handRows)) })) ∧
    getMainStats [] { hands := [statsHandP], hero := none, main_stats := some [("P", "h1")] }
        none false
      = .ok ([("P", "h1")], [],
             { hands := [statsHandP], hero := none, main_stats := some [("P", "h1")] }) ∧
    ((statsHands (historyInit [statsHandQ] none) none).flatMap handRows).Nodup := by
  have base := c6_amended_one_row_per_pair_fresh_buffer [("P", "h1")]
    (historyInit [statsHandQ] none) none (by decide) (by decide)
  exact ⟨base.1,
    base.2.1 [] { hands := [statsHandP], hero := none, main_stats := some [("P", "h1")] }
      [("P", "h1")] rfl,
    base.2.2 (by decide) (by decide)⟩

end PyPoker
